import Mathlib

/-!
Shallow embedding of the log-processing core of `src/main.py`
(vfh-vs-nd-playerstage): line filtering feeds tokenized numeric data lines
into `get_laser_data` / `get_position_data`, whose tables are fused by
`get_obstacle_data`; `group_by` buckets the per-log results.

Conventions of the embedding:
- a whitespace-tokenized numeric data line is a `List ℝ` (the header line
  consumed by `next(...)` is not part of the input lists);
- a Python exception (numpy shape error, pandas `.loc` key error,
  `ValueError`, `IndexError`) is modelled by `Option.none`;
- a numpy NaN produced by the sentinel replacement `np.where(r >= max_range,
  np.nan, r)` is modelled by `Option.none` at the element level, so an array
  that may hold NaN is a `List (Option ℝ)`.
-/

set_option maxRecDepth 16000

namespace VfhNd

/-- Column selection of `np.genfromtxt(..., usecols=...)`: the tokens of one
line at the requested column indices. -/
def selectCols (usecols : List ℕ) (line : List ℝ) : List ℝ :=
  usecols.map (fun c => line.getD c 0)

/-- `np.genfromtxt(lines, usecols=usecols)`.  genfromtxt takes the column
count of the first line as authoritative and raises if a later line has a
different count or if a requested column is out of range; on an empty input
it produces an empty (one-dimensional) result, which `some []` models here
(the squeeze to one dimension is handled at the call sites). -/
def genfromtxt (usecols : List ℕ) (lines : List (List ℝ)) :
    Option (List (List ℝ)) :=
  match lines with
  | [] => some []
  | l0 :: _ =>
    if lines.all (fun l => l.length == l0.length)
        && usecols.all (fun c => decide (c < l0.length)) then
      some (lines.map (selectCols usecols))
    else none

/-- `usecols=[0] + list(range(7, 735))` of `get_laser_data`:
column 0 followed by columns 7 through 734. -/
def usecolsLaser : List ℕ := 0 :: List.range' 7 728

/-- The columns at even offsets of a list: the `[k::2]` numpy slice applied
after dropping the first `k` entries. -/
def everyOther {α : Type} : List α → List α
  | [] => []
  | [x] => [x]
  | x :: _ :: rest => x :: everyOther rest

/-- The `.astype("int64")` cast of a float column entry: C truncation toward
zero. -/
noncomputable def truncZ (x : ℝ) : ℤ := if 0 ≤ x then ⌊x⌋ else -⌊-x⌋

/-- One element of `np.where(r >= max_range, np.nan, r)`: a range greater
than or equal to the first row's `max_range` becomes NaN (`none`). -/
noncomputable def sentinelize (max_range r : ℝ) : Option ℝ :=
  if max_range ≤ r then none else some r

/-- One row of the laser `DataFrame` of `get_laser_data`, after the
`astype` casts and the sentinel replacement on `ranges`. -/
structure LaserRow where
  time : ℝ
  scan_id : ℤ
  min_angle : ℝ
  max_angle : ℝ
  resolution : ℝ
  max_range : ℝ
  count : ℤ
  ranges : List (Option ℝ)
  intensities : List ℝ
deriving Inhabited

/-- One laser row built from one selected (729-column) genfromtxt row `s`:
`metadata = s[:7]` gives the seven scalar columns, `ranges = s[7::2]` (with
the sentinel replacement using the first row's `max_range` applied),
`intensities = s[8::2]`. -/
noncomputable def laserRowOf (max_range0 : ℝ) (s : List ℝ) : LaserRow :=
  { time := s.getD 0 0
    scan_id := truncZ (s.getD 1 0)
    min_angle := s.getD 2 0
    max_angle := s.getD 3 0
    resolution := s.getD 4 0
    max_range := s.getD 5 0
    count := truncZ (s.getD 6 0)
    ranges := (everyOther (s.drop 7)).map (sentinelize max_range0)
    intensities := everyOther (s.drop 8) }

/-- `get_laser_data(laser_lines)` on the data lines that follow the header:
`np.genfromtxt(..., usecols=[0] + list(range(7, 735)))`, the metadata /
ranges / intensities split, the `astype` casts, and the replacement of every
range `>= max_range` (the `max_range` of row 0) with NaN.  genfromtxt
squeezes a zero- or one-line result to one dimension, so the two-dimensional
slices `laser_readings[:, :7]` etc. raise for fewer than two data lines
(`none`). -/
noncomputable def get_laser_data (lines : List (List ℝ)) :
    Option (List LaserRow) :=
  match genfromtxt usecolsLaser lines with
  | none => none
  | some sel =>
    if sel.length < 2 then none
    else some (sel.map (laserRowOf ((sel.headD []).getD 5 0)))

/-- `usecols=[0, 7, 8, 9, 10, 11, 12]` of `get_position_data`. -/
def usecolsPosition : List ℕ := [0, 7, 8, 9, 10, 11, 12]

/-- `np.diff` along the row axis: successive differences. -/
def npdiff (l : List ℝ) : List ℝ :=
  List.zipWith (fun x y => y - x) l l.tail

/-- One row of the position `DataFrame` of `get_position_data`, columns in
the order `position_fields`. -/
structure PosRow where
  time : ℝ
  px : ℝ
  py : ℝ
  pa : ℝ
  vx : ℝ
  vy : ℝ
  va : ℝ
  scalar_speed : ℝ
  a : ℝ
  distance_to_target : ℝ
deriving Inhabited

/-- `get_position_data(position_lines, target_position)` on the data lines
that follow the header: genfromtxt on columns `[0, 7, 8, 9, 10, 11, 12]`,
`scalar_speed = sqrt(vx**2 + vy**2)`, the acceleration column
`a = np.insert(np.diff(scalar_speed) / np.diff(time), 0, 0)`, the distance
to the target, and the `hstack` into one row per input line.  As in
`get_laser_data`, a zero- or one-line input is squeezed to one dimension by
genfromtxt and the column slices raise (`none`). -/
noncomputable def get_position_data (lines : List (List ℝ))
    (target_position : ℝ × ℝ) : Option (List PosRow) :=
  match genfromtxt usecolsPosition lines with
  | none => none
  | some sel =>
    if sel.length < 2 then none
    else
      let time := sel.map (fun s => s.getD 0 0)
      let px := sel.map (fun s => s.getD 1 0)
      let py := sel.map (fun s => s.getD 2 0)
      let pa := sel.map (fun s => s.getD 3 0)
      let vx := sel.map (fun s => s.getD 4 0)
      let vy := sel.map (fun s => s.getD 5 0)
      let va := sel.map (fun s => s.getD 6 0)
      let scalar_speed :=
        List.zipWith (fun x y => Real.sqrt (x ^ 2 + y ^ 2)) vx vy
      let a := 0 :: List.zipWith (fun ds dt => ds / dt)
        (npdiff scalar_speed) (npdiff time)
      let distance_to_target := List.zipWith
        (fun x y =>
          Real.sqrt ((x - target_position.1) ^ 2 + (y - target_position.2) ^ 2))
        px py
      some ((List.range sel.length).map (fun i =>
        { time := time.getD i 0
          px := px.getD i 0
          py := py.getD i 0
          pa := pa.getD i 0
          vx := vx.getD i 0
          vy := vy.getD i 0
          va := va.getD i 0
          scalar_speed := scalar_speed.getD i 0
          a := a.getD i 0
          distance_to_target := distance_to_target.getD i 0 }))

/-- A two-dimensional numpy array: a shape together with an entry function
(entries outside the shape are irrelevant junk). -/
structure NArr (β : Type) where
  rows : ℕ
  cols : ℕ
  entry : ℕ → ℕ → β

/-- numpy broadcasting of one axis: two lengths are compatible when they are
equal or one of them is 1; otherwise the operation raises. -/
def bLen (a b : ℕ) : Option ℕ :=
  if a = b then some a else if a = 1 then some b else if b = 1 then some a
  else none

/-- Index into an axis after broadcasting: a length-1 axis is recycled. -/
def bIx (d i : ℕ) : ℕ := if d = 1 then 0 else i

/-- An elementwise binary numpy operation with broadcasting; raises (`none`)
on incompatible shapes. -/
def bcast2 {β γ δ : Type} (f : β → γ → δ) (A : NArr β) (B : NArr γ) :
    Option (NArr δ) := do
  let r ← bLen A.rows B.rows
  let c ← bLen A.cols B.cols
  pure ⟨r, c, fun i j =>
    f (A.entry (bIx A.rows i) (bIx A.cols j))
      (B.entry (bIx B.rows i) (bIx B.cols j))⟩

/-- `np.stack` on a list of equal-length rows; raises on an empty list or on
rows of differing lengths. -/
def npStack (rs : List (List (Option ℝ))) : Option (NArr (Option ℝ)) :=
  match rs with
  | [] => none
  | r0 :: _ =>
    if rs.all (fun r => r.length == r0.length) then
      some ⟨rs.length, r0.length, fun i j => (rs.getD i []).getD j none⟩
    else none

/-- `np.linspace(start, stop, num)` with an integer `num`: raises for a
negative `num`; `num` evenly spaced samples over `[start, stop]` otherwise
(a single sample is `start`). -/
noncomputable def np_linspace (start stop : ℝ) (num : ℤ) :
    Option (List ℝ) :=
  if num < 0 then none
  else some ((List.range num.toNat).map (fun (k : ℕ) =>
    if num.toNat ≤ 1 then start
    else start + (k : ℝ) * (stop - start) / ((num.toNat - 1 : ℕ) : ℝ)))

/-- `polar_to_cartesian(r, theta) = (r * np.cos(theta), r * np.sin(theta))`,
elementwise with broadcasting; a NaN range (`none`) propagates. -/
noncomputable def polar_to_cartesian (r : NArr (Option ℝ)) (theta : NArr ℝ) :
    Option (NArr (Option ℝ) × NArr (Option ℝ)) := do
  let x ← bcast2 (fun ro t => ro.map (fun v => v * Real.cos t)) r theta
  let y ← bcast2 (fun ro t => ro.map (fun v => v * Real.sin t)) r theta
  pure (x, y)

/-- The rows of a two-dimensional array, as lists (the iteration order of
`zip` over a numpy array). -/
def rowsOf {β : Type} (M : NArr β) : List (List β) :=
  (List.range M.rows).map (fun i => (List.range M.cols).map (M.entry i))

/-- Python `zip` over four sequences: truncates to the shortest. -/
def zip4 {α β γ δ : Type} : List α → List β → List γ → List δ →
    List (α × β × γ × δ)
  | a :: as, b :: bs, c :: cs, d :: ds => (a, b, c, d) :: zip4 as bs cs ds
  | _, _, _, _ => []

/-- The per-scan reduction `ranges.min(axis=1, initial=8,
where=~np.isnan(ranges))`: the minimum of the initial value 8 and the
non-NaN entries of one row. -/
noncomputable def rowMinInitial8 (row : List (Option ℝ)) : ℝ :=
  row.foldl (fun acc x => match x with | some v => min acc v | none => acc) 8

/-- One row of the obstacle `DataFrame` of `get_obstacle_data`. -/
structure ObsRow where
  time : ℝ
  obs_x : List (Option ℝ)
  obs_y : List (Option ℝ)
  distance_to_nearest_obstacle : ℝ
deriving Inhabited

/-- `get_obstacle_data(position_data, laser_data)`:
`laser_data.loc[0]` (raises on an empty table), the beam angles
`np.linspace(min_angle, max_angle, count)`, the per-row world angles
`pa.repeat(len(laser_angles)).reshape((-1, len(laser_angles))) +
laser_angles` (the `reshape(-1, 0)` of a size-0 array raises, hence the
guard on a zero angle count), `np.stack` of the ranges,
`polar_to_cartesian`, the shift by `px`/`py` (broadcast against a repeated
column, whose `reshape(-1, 0)` likewise raises for a zero row size), the
seeded minimum `ranges.min(axis=1, initial=8, where=~np.isnan(ranges))`,
and the final `zip` (which truncates to the shortest sequence). -/
noncomputable def get_obstacle_data (position_data : List PosRow)
    (laser_data : List LaserRow) : Option (List ObsRow) := do
  let laser_reading ← laser_data.head?
  let laser_angles ← np_linspace laser_reading.min_angle
    laser_reading.max_angle laser_reading.count
  if laser_angles.length = 0 then none
  else
    let pa := position_data.map (fun p => p.pa)
    let angles : NArr ℝ :=
      ⟨pa.length, laser_angles.length,
        fun i j => pa.getD i 0 + laser_angles.getD j 0⟩
    let ranges ← npStack (laser_data.map (fun l => l.ranges))
    let (obs_relative_x, obs_relative_y) ← polar_to_cartesian ranges angles
    let row_size := obs_relative_x.cols
    if row_size = 0 then none
    else
      let px := position_data.map (fun p => p.px)
      let py := position_data.map (fun p => p.py)
      let obs_x ← bcast2 (fun p ro => ro.map (fun v => p + v))
        ⟨px.length, row_size, fun i _ => px.getD i 0⟩ obs_relative_x
      let obs_y ← bcast2 (fun p ro => ro.map (fun v => p + v))
        ⟨py.length, row_size, fun i _ => py.getD i 0⟩ obs_relative_y
      let distance_to_nearest_obstacle :=
        (List.range ranges.rows).map (fun i =>
          rowMinInitial8 ((List.range ranges.cols).map (ranges.entry i)))
      let times := laser_data.map (fun l => l.time)
      pure ((zip4 times (rowsOf obs_x) (rowsOf obs_y)
          distance_to_nearest_obstacle).map
        (fun q => ⟨q.1, q.2.1, q.2.2.1, q.2.2.2⟩))

/-- One maximal run of `itertools.groupby(iterable, key_function)`: the list
is cut into maximal blocks of consecutive elements sharing a key. -/
def pyGroupBy {T K : Type} [DecidableEq K] (key : T → K) :
    List T → List (K × List T)
  | [] => []
  | x :: xs =>
    match pyGroupBy key xs with
    | [] => [(key x, [x])]
    | (k, g) :: rest =>
      if key x = k then (key x, x :: g) :: rest
      else (key x, [x]) :: (k, g) :: rest

/-- Insertion into a Python dict: an existing key keeps its position and has
its value overwritten; a new key is appended. -/
def dictInsert {K V : Type} [DecidableEq K] (d : List (K × V)) (k : K)
    (v : V) : List (K × V) :=
  if d.any (fun p => decide (p.1 = k)) then
    d.map (fun p => if p.1 = k then (k, v) else p)
  else d ++ [(k, v)]

/-- A Python dict built from a sequence of key/value pairs (as a dict
comprehension does): later pairs overwrite earlier ones. -/
def pyDict {K V : Type} [DecidableEq K] (ps : List (K × V)) : List (K × V) :=
  ps.foldl (fun d p => dictInsert d p.1 p.2) []

/-- Python `d[k]` / `d.get(k)` on the dict model: the value at the unique
occurrence of `k`. -/
def dget {K V : Type} [DecidableEq K] (d : List (K × V)) (k : K) :
    Option V :=
  (d.find? (fun p => decide (p.1 = k))).map (fun p => p.2)

/-- `group_by(iterable, key_function)` of `src/main.py`: the dict
comprehension `{key: list(group) for key, group in groupby(iterable,
key_function)}` over the consecutive runs of `itertools.groupby`. -/
def group_by {T K : Type} [DecidableEq K] (l : List T) (key : T → K) :
    List (K × List T) :=
  pyDict (pyGroupBy key l)

/-- A sequence is clustered for a key function when equal keys only occur
consecutively, i.e. the runs that `itertools.groupby` produces carry
pairwise distinct keys.  Directory enumeration yields the per-log records
clustered by algorithm and, within an algorithm, by difficulty. -/
def Clustered {T K : Type} [DecidableEq K] (key : T → K) (l : List T) :
    Prop :=
  ((pyGroupBy key l).map Prod.fst).Nodup

instance {T K : Type} [DecidableEq K] (key : T → K) (l : List T) :
    Decidable (Clustered key l) :=
  List.nodupDecidable _

/-- The `LogMetadata` record of `log_data.py` (discovery output). -/
structure LogMetadata where
  index : ℕ
  path : String
  algorithm : String
  difficulty : String
deriving DecidableEq

/-- The `LogData` record assembled by `get_log_data`. -/
structure LogData where
  metadata : LogMetadata
  laser_data : List LaserRow
  position_data : List PosRow
  obstacle_data : List ObsRow

/-- The nested grouping of `process_log_dir`: group by algorithm, then each
algorithm's list by difficulty. -/
def group_by_algorithm_and_difficulty (logs : List LogData) :
    List (String × List (String × List LogData)) :=
  (group_by logs (fun ld => ld.metadata.algorithm)).map
    (fun p => (p.1, group_by p.2 (fun ld => ld.metadata.difficulty)))

/-- The bucket of one algorithm/difficulty pair in the nested grouping
(empty when either key is absent). -/
def nestedBucket (logs : List LogData) (a d : String) : List LogData :=
  match dget (group_by_algorithm_and_difficulty logs) a with
  | none => []
  | some inner => (dget inner d).getD []

/-- The target selection of `get_log_data` (line 106):
`(-1, 6) if log_metadata["difficulty"] == "realistic" else (-8, -7.5)`. -/
noncomputable def target_position_for (difficulty : String) : ℝ × ℝ :=
  if difficulty = "realistic" then (-1, 6) else (-8, -7.5)

/-- `get_log_data(log_metadata)` on the two pre-filtered tokenized line
streams of one log file: the laser table, the target selected by the
difficulty tag, the position table, the obstacle table, and the assembled
record. -/
noncomputable def get_log_data (log_metadata : LogMetadata)
    (laser_lines position_lines : List (List ℝ)) : Option LogData := do
  let laser_data ← get_laser_data laser_lines
  let target_position := target_position_for log_metadata.difficulty
  let position_data ← get_position_data position_lines target_position
  let obstacle_data ← get_obstacle_data position_data laser_data
  pure { metadata := log_metadata, laser_data := laser_data,
         position_data := position_data, obstacle_data := obstacle_data }

/-- The finite (non-NaN) entries of one ranges row. -/
def finiteVals (rs : List (Option ℝ)) : List ℝ := rs.filterMap id

/-- Modelled from the spec (§4.4 step 4): `distance_to_nearest_obstacle[i] =
min(finite ranges in scan i)`, falling back to the laser's maximum range
bound when every beam is unknown.  Stated from the spec's words, to be
compared with the value the code computes. -/
noncomputable def spec_nearest_obstacle (rs : List (Option ℝ))
    (maxBound : ℝ) : ℝ :=
  match finiteVals rs with
  | [] => maxBound
  | v :: vs => vs.foldl min v

/-- Demonstration laser stream: two data lines of 735 tokens, every token
the number 3. -/
def demoLaserLines : List (List ℝ) := List.replicate 2 (List.replicate 735 3)

/-- The laser row `get_laser_data` builds from one all-3 line when the first
row's `max_range` is 3: every stored range equals `max_range`, so every
range is replaced by the unknown marker. -/
noncomputable def demoLaserRow : LaserRow :=
  { time := 3, scan_id := truncZ 3, min_angle := 3, max_angle := 3,
    resolution := 3, max_range := 3, count := truncZ 3,
    ranges := List.replicate 361 none,
    intensities := List.replicate 361 3 }

/-- The laser table built from `demoLaserLines`. -/
noncomputable def demoLaserTbl : List LaserRow := List.replicate 2 demoLaserRow

/-- Demonstration position stream: two 13-token data lines, all zeros then
all ones. -/
def demoPosLines : List (List ℝ) :=
  [List.replicate 13 0, List.replicate 13 1]

/-- An all-zero position row. -/
def posRowZero : PosRow := ⟨0, 0, 0, 0, 0, 0, 0, 0, 0, 0⟩

/-- A single-beam laser row: one known range 2 below `max_range` 3. -/
def laserRowA : LaserRow :=
  { time := 0, scan_id := 0, min_angle := 0, max_angle := 0, resolution := 0,
    max_range := 3, count := 1, ranges := [some 2], intensities := [0] }

/-- A single-beam laser row whose recorded `max_range` is 10 and whose one
known range is 9 (legal: 9 < 10). -/
def laserRowB : LaserRow :=
  { time := 0, scan_id := 0, min_angle := 0, max_angle := 0, resolution := 0,
    max_range := 10, count := 1, ranges := [some 9], intensities := [0] }

/-- A single-beam laser row whose recorded `max_range` is 10 and whose one
beam is unknown. -/
def laserRowU : LaserRow :=
  { time := 0, scan_id := 0, min_angle := 0, max_angle := 0, resolution := 0,
    max_range := 10, count := 1, ranges := [none], intensities := [0] }

/-- A `LogData` record with the given index, algorithm and difficulty and
empty tables (grouping only inspects the metadata). -/
def logRec (i : ℕ) (alg diff : String) : LogData :=
  ⟨⟨i, "p", alg, diff⟩, [], [], []⟩

/-- Three records whose algorithms are not consecutive: vfh, nd, vfh. -/
def demoLogsBad : List LogData :=
  [logRec 1 "vfh" "d", logRec 2 "nd" "d", logRec 3 "vfh" "d"]

/-- Three records listed the way directory enumeration yields them: both
vfh records adjacent, then the nd record. -/
def demoLogsGood : List LogData :=
  [logRec 1 "vfh" "d", logRec 2 "vfh" "e", logRec 3 "nd" "d"]

/-- The obstacle row produced for each of the two scans of the
`laserRowA` table paired with the all-zero position rows. -/
noncomputable def demoObsRow : ObsRow :=
  { time := 0
    obs_x := [some (0 + 2 * Real.cos (0 + 0))]
    obs_y := [some (0 + 2 * Real.sin (0 + 0))]
    distance_to_nearest_obstacle := min 8 2 }

/-- The obstacle table of the two-scans demonstration run. -/
noncomputable def demoObsTbl : List ObsRow := List.replicate 2 demoObsRow

/-- The obstacle row produced for each of the two `laserRowB` scans (known
range 9, `max_range` 10) paired with the all-zero position rows. -/
noncomputable def demoObsRowB : ObsRow :=
  { time := 0
    obs_x := [some (0 + 9 * Real.cos (0 + 0))]
    obs_y := [some (0 + 9 * Real.sin (0 + 0))]
    distance_to_nearest_obstacle := min 8 9 }

/-- The obstacle table of the `laserRowB` demonstration run. -/
noncomputable def demoObsTblB : List ObsRow := List.replicate 2 demoObsRowB

end VfhNd

namespace VfhNd

/-! ### Supporting lemmas -/

theorem genfromtxt_some {usecols : List ℕ} {lines sel : List (List ℝ)}
    (h : genfromtxt usecols lines = some sel) :
    sel = lines.map (selectCols usecols) := by
  cases lines with
  | nil =>
    simp only [genfromtxt] at h
    simpa using h.symm
  | cons l0 rest =>
    simp only [genfromtxt] at h
    split at h
    · simpa using h.symm
    · exact absurd h (by simp)

theorem get_laser_data_some {lines : List (List ℝ)} {tbl : List LaserRow}
    (h : get_laser_data lines = some tbl) :
    ∃ sel, genfromtxt usecolsLaser lines = some sel ∧ 2 ≤ sel.length ∧
      tbl = sel.map (laserRowOf ((sel.headD []).getD 5 0)) := by
  unfold get_laser_data at h
  cases hg : genfromtxt usecolsLaser lines with
  | none =>
    rw [hg] at h
    exact absurd h (by simp)
  | some sel =>
    rw [hg] at h
    dsimp only at h
    by_cases h2 : sel.length < 2
    · rw [if_pos h2] at h
      exact absurd h (by simp)
    · rw [if_neg h2] at h
      exact ⟨sel, rfl, by omega, (Option.some.inj h).symm⟩

theorem npStack_some {rs : List (List (Option ℝ))} {M : NArr (Option ℝ)}
    (h : npStack rs = some M) :
    M.rows = rs.length ∧ (∀ r ∈ rs, r.length = M.cols) ∧
      M.entry = fun i j => (rs.getD i []).getD j none := by
  cases rs with
  | nil => exact absurd h (by simp [npStack])
  | cons r0 rest =>
    simp only [npStack] at h
    split at h
    · cases Option.some.inj h
      refine ⟨rfl, ?_, rfl⟩
      intro r hr
      rename_i hall
      simpa using List.all_eq_true.mp hall r hr
    · exact absurd h (by simp)

theorem bLen_self (a : ℕ) : bLen a a = some a := by simp [bLen]

theorem bLen_none {a b : ℕ} (ha : 2 ≤ a) (hb : 2 ≤ b) (hne : a ≠ b) :
    bLen a b = none := by
  unfold bLen
  rw [if_neg hne, if_neg (by omega), if_neg (by omega)]

theorem bIx_lt {d i : ℕ} (h : i < d) : bIx d i = i := by
  unfold bIx
  split
  · omega
  · rfl

/-- Full inversion of a successful `get_obstacle_data` run into the
intermediate numpy values it builds. -/
theorem get_obstacle_data_some {pd : List PosRow} {ld : List LaserRow}
    {tbl : List ObsRow} (h : get_obstacle_data pd ld = some tbl) :
    ∃ (r0 : LaserRow) (A : List ℝ) (R RX RY OX OY : NArr (Option ℝ)),
      ld.head? = some r0 ∧
      np_linspace r0.min_angle r0.max_angle r0.count = some A ∧
      A.length ≠ 0 ∧
      npStack (ld.map (fun l => l.ranges)) = some R ∧
      bcast2 (fun ro t => ro.map (fun v => v * Real.cos t)) R
        ⟨(pd.map (fun p => p.pa)).length, A.length,
          fun i j => (pd.map (fun p => p.pa)).getD i 0 + A.getD j 0⟩ =
        some RX ∧
      bcast2 (fun ro t => ro.map (fun v => v * Real.sin t)) R
        ⟨(pd.map (fun p => p.pa)).length, A.length,
          fun i j => (pd.map (fun p => p.pa)).getD i 0 + A.getD j 0⟩ =
        some RY ∧
      RX.cols ≠ 0 ∧
      bcast2 (fun p ro => ro.map (fun v => p + v))
        ⟨(pd.map (fun p => p.px)).length, RX.cols,
          fun i _ => (pd.map (fun p => p.px)).getD i 0⟩ RX = some OX ∧
      bcast2 (fun p ro => ro.map (fun v => p + v))
        ⟨(pd.map (fun p => p.py)).length, RX.cols,
          fun i _ => (pd.map (fun p => p.py)).getD i 0⟩ RY = some OY ∧
      tbl = (zip4 (ld.map (fun l => l.time)) (rowsOf OX) (rowsOf OY)
        ((List.range R.rows).map (fun i =>
          rowMinInitial8 ((List.range R.cols).map (R.entry i))))).map
        (fun q => ⟨q.1, q.2.1, q.2.2.1, q.2.2.2⟩) := by
  unfold get_obstacle_data at h
  cases hh : ld.head? with
  | none => rw [hh] at h; exact absurd h (by simp)
  | some r0 =>
    rw [hh] at h
    simp only [Option.bind_eq_bind, Option.some_bind] at h
    cases hls : np_linspace r0.min_angle r0.max_angle r0.count with
    | none => rw [hls] at h; exact absurd h (by simp)
    | some A =>
      rw [hls] at h
      simp only [Option.some_bind] at h
      by_cases hz : A.length = 0
      · rw [if_pos hz] at h
        exact absurd h (by simp)
      · rw [if_neg hz] at h
        cases hst : npStack (ld.map (fun l => l.ranges)) with
        | none => rw [hst] at h; exact absurd h (by simp)
        | some R =>
          rw [hst] at h
          simp only [Option.some_bind] at h
          unfold polar_to_cartesian at h
          simp only [Option.bind_eq_bind] at h
          cases hbx : bcast2 (fun ro t => ro.map (fun v => v * Real.cos t)) R
              ⟨(pd.map (fun p => p.pa)).length, A.length,
                fun i j => (pd.map (fun p => p.pa)).getD i 0 + A.getD j 0⟩ with
          | none => rw [hbx] at h; exact absurd h (by simp)
          | some RX =>
            rw [hbx] at h
            simp only [Option.some_bind] at h
            cases hby : bcast2 (fun ro t => ro.map (fun v => v * Real.sin t)) R
                ⟨(pd.map (fun p => p.pa)).length, A.length,
                  fun i j => (pd.map (fun p => p.pa)).getD i 0 + A.getD j 0⟩ with
            | none => rw [hby] at h; exact absurd h (by simp)
            | some RY =>
              rw [hby] at h
              simp only [Option.pure_def, Option.some_bind] at h
              by_cases hc0 : RX.cols = 0
              · rw [if_pos hc0] at h
                exact absurd h (by simp)
              · rw [if_neg hc0] at h
                cases hox : bcast2 (fun p ro => ro.map (fun v => p + v))
                    ⟨(pd.map (fun p => p.px)).length, RX.cols,
                      fun i _ => (pd.map (fun p => p.px)).getD i 0⟩ RX with
                | none => rw [hox] at h; exact absurd h (by simp)
                | some OX =>
                  rw [hox] at h
                  simp only [Option.some_bind] at h
                  cases hoy : bcast2 (fun p ro => ro.map (fun v => p + v))
                      ⟨(pd.map (fun p => p.py)).length, RX.cols,
                        fun i _ => (pd.map (fun p => p.py)).getD i 0⟩ RY with
                  | none => rw [hoy] at h; exact absurd h (by simp)
                  | some OY =>
                    rw [hoy] at h
                    simp only [Option.some_bind] at h
                    exact ⟨r0, A, R, RX, RY, OX, OY, rfl, hls, hz, rfl, hbx,
                      hby, hc0, hox, hoy, (Option.some.inj h).symm⟩

theorem foldl_min_le (row : List (Option ℝ)) :
    ∀ acc : ℝ,
      row.foldl (fun acc x =>
        match x with | some v => min acc v | none => acc) acc ≤ acc := by
  induction row with
  | nil => intro acc; simp
  | cons x xs ih =>
    intro acc
    cases x with
    | none => simpa using ih acc
    | some v =>
      calc xs.foldl (fun acc x =>
            match x with | some v => min acc v | none => acc) (min acc v)
          ≤ min acc v := ih _
        _ ≤ acc := min_le_left _ _

theorem rowMinInitial8_le (row : List (Option ℝ)) : rowMinInitial8 row ≤ 8 :=
  foldl_min_le row 8

theorem zip4_mem_fourth {α β γ δ : Type} :
    ∀ (as : List α) (bs : List β) (cs : List γ) (ds : List δ)
      (q : α × β × γ × δ), q ∈ zip4 as bs cs ds → q.2.2.2 ∈ ds
  | a :: as, b :: bs, c :: cs, d :: ds, q, hq => by
    rcases List.mem_cons.mp hq with h | h
    · subst h
      exact List.mem_cons_self _ _
    · exact List.mem_cons_of_mem _ (zip4_mem_fourth as bs cs ds q h)
  | [], bs, cs, ds, q, hq => by
    cases bs <;> cases cs <;> cases ds <;> simp [zip4] at hq
  | a :: as, [], cs, ds, q, hq => by
    cases cs <;> cases ds <;> simp [zip4] at hq
  | a :: as, b :: bs, [], ds, q, hq => by
    cases ds <;> simp [zip4] at hq
  | a :: as, b :: bs, c :: cs, [], q, hq => by
    simp [zip4] at hq

theorem drop_replicate {α : Type} (a : α) :
    ∀ n k : ℕ, (List.replicate n a).drop k = List.replicate (n - k) a := by
  intro n k
  induction k generalizing n with
  | zero => simp
  | succ k ih =>
    cases n with
    | zero => simp
    | succ n =>
      rw [List.replicate_succ, List.drop_succ_cons, ih]
      congr 1
      omega

theorem everyOther_replicate {α : Type} (a : α) :
    ∀ n : ℕ, everyOther (List.replicate n a) = List.replicate ((n + 1) / 2) a
  | 0 => rfl
  | 1 => rfl
  | n + 2 => by
    rw [List.replicate_succ, List.replicate_succ]
    show a :: everyOther (List.replicate n a) =
      List.replicate ((n + 2 + 1) / 2) a
    rw [everyOther_replicate a n,
      show (n + 2 + 1) / 2 = (n + 1) / 2 + 1 by omega, List.replicate_succ]

theorem everyOther_map {α β : Type} (f : α → β) :
    ∀ l : List α, everyOther (l.map f) = (everyOther l).map f
  | [] => rfl
  | [x] => rfl
  | x :: y :: rest => by
    simp only [List.map_cons]
    show f x :: everyOther (rest.map f) =
      (everyOther (x :: y :: rest)).map f
    rw [everyOther_map f rest]
    rfl

theorem selectCols_getD (l : List ℝ) (k : ℕ) (hk : k < 729) :
    (selectCols usecolsLaser l).getD k 0 =
      l.getD (usecolsLaser.getD k 0) 0 := by
  unfold selectCols
  have hlen : usecolsLaser.length = 729 := by decide
  rw [List.getD_eq_getElem _ _ (by simpa [hlen] using hk),
    List.getElem_map]
  congr 1
  rw [List.getD_eq_getElem _ _ (by simpa [hlen] using hk)]

theorem getD_range_map {β : Type} (F : ℕ → β) (d : β) (n i : ℕ)
    (hi : i < n) : ((List.range n).map F).getD i d = F i := by
  rw [List.getD_eq_getElem _ _ (by simpa using hi), List.getElem_map,
    List.getElem_range]

theorem npdiff_length (l : List ℝ) : (npdiff l).length = l.length - 1 := by
  unfold npdiff
  rw [List.length_zipWith]
  simp

theorem npdiff_getD (l : List ℝ) (k : ℕ) (hk : k + 1 < l.length) :
    (npdiff l).getD k 0 = l.getD (k + 1) 0 - l.getD k 0 := by
  unfold npdiff
  have hk1 : k < (List.zipWith (fun x y => y - x) l l.tail).length := by
    rw [List.length_zipWith]
    simp only [List.length_tail]
    omega
  rw [List.getD_eq_getElem _ _ hk1, List.getElem_zipWith,
    List.getD_eq_getElem _ _ (by omega), List.getD_eq_getElem _ _ (by omega)]
  rw [List.getElem_tail]

theorem bcast2_same {β γ δ : Type} (f : β → γ → δ) (A : NArr β)
    (B : NArr γ) (hr : B.rows = A.rows) (hc : B.cols = A.cols) :
    bcast2 f A B = some ⟨A.rows, A.cols, fun i j =>
      f (A.entry (bIx A.rows i) (bIx A.cols j))
        (B.entry (bIx B.rows i) (bIx B.cols j))⟩ := by
  unfold bcast2
  rw [hr, hc, bLen_self, bLen_self]
  rfl

theorem np_linspace_length {s t : ℝ} {num : ℤ} {A : List ℝ}
    (h : np_linspace s t num = some A) : A.length = num.toNat := by
  unfold np_linspace at h
  split at h
  · exact absurd h (by simp)
  · cases Option.some.inj h
    simp

/-! ### C9: fallback target selection -/

/-- C9: for every difficulty tag different from "realistic", `get_log_data`
selects the fallback target position (-8, -7.5), and the whole computation
is the ordinary pipeline run with that target — there is no "unrecognized
difficulty" failure path. -/
theorem target_fallback_for_unrecognized (md : LogMetadata)
    (laser_lines position_lines : List (List ℝ))
    (h : md.difficulty ≠ "realistic") :
    target_position_for md.difficulty = (-8, -7.5) ∧
    get_log_data md laser_lines position_lines =
      (get_laser_data laser_lines).bind (fun lt =>
        (get_position_data position_lines (-8, -7.5)).bind (fun pt =>
          (get_obstacle_data pt lt).bind (fun ot =>
            some ⟨md, lt, pt, ot⟩))) := by
  have ht : target_position_for md.difficulty = (-8, -7.5) := by
    unfold target_position_for
    rw [if_neg h]
  refine ⟨ht, ?_⟩
  unfold get_log_data
  rw [ht]
  rfl

/-- Witness for C9 at the concrete unrecognized tag "hard". -/
theorem target_fallback_for_unrecognized_witness :
    target_position_for "hard" = (-8, -7.5) :=
  (target_fallback_for_unrecognized ⟨1, "p", "vfh", "hard"⟩ [] []
    (by decide)).1

/-! ### C4: empty laser stream -/

/-- C4 counterexample: on an input whose filtered laser stream has zero data
lines after the header, `get_laser_data` raises (genfromtxt yields a
one-dimensional empty result, so the two-dimensional slice
`laser_readings[:, :7]` fails) instead of yielding a zero-row table. -/
theorem empty_laser_crash_counterexample :
    get_laser_data ([] : List (List ℝ)) = none ∧
    get_laser_data ([] : List (List ℝ)) ≠ some [] := by
  constructor
  · rfl
  · intro hc
    rw [show get_laser_data ([] : List (List ℝ)) = none from rfl] at hc
    exact Option.noConfusion hc

/-- C4 amended: a log with zero laser data lines after the header makes
table construction raise (`none`), and `get_obstacle_data` applied to an
empty laser table also raises (the `laser_data.loc[0]` lookup fails), rather
than returning an empty obstacle table. -/
theorem empty_laser_raises :
    get_laser_data ([] : List (List ℝ)) = none ∧
    ∀ pd : List PosRow, get_obstacle_data pd [] = none :=
  ⟨rfl, fun _ => rfl⟩

/-! ### C5: mismatched row counts -/

/-- C5 counterexample: a laser table of 2 rows against a position table of
3 rows makes `get_obstacle_data` raise (numpy cannot broadcast the shapes
(2, 1) and (3, 1) in `r * np.cos(theta)`); it does not produce a 2-row
output, so the pairing is not "silently truncated to the shorter table". -/
theorem obstacle_mismatch_counterexample :
    get_obstacle_data (List.replicate 3 posRowZero)
      (List.replicate 2 laserRowA) = none ∧
    ∀ tbl : List ObsRow,
      get_obstacle_data (List.replicate 3 posRowZero)
        (List.replicate 2 laserRowA) ≠ some tbl := by
  constructor
  · rfl
  · intro tbl hc
    rw [show get_obstacle_data (List.replicate 3 posRowZero)
        (List.replicate 2 laserRowA) = none from rfl] at hc
    exact Option.noConfusion hc

/-- C5 amended: when the laser and position tables have different row counts
and both have at least two rows, `get_obstacle_data` raises a broadcasting
error (`none`) instead of truncating the pairing to the shorter table. -/
theorem obstacle_mismatch_raises (pd : List PosRow) (ld : List LaserRow)
    (hp : 2 ≤ pd.length) (hl : 2 ≤ ld.length)
    (hne : pd.length ≠ ld.length) :
    get_obstacle_data pd ld = none := by
  unfold get_obstacle_data
  cases hh : ld.head? with
  | none => simp [hh]
  | some r0 =>
    simp only [Option.bind_eq_bind, Option.some_bind]
    cases hls : np_linspace r0.min_angle r0.max_angle r0.count with
    | none => simp [hls]
    | some A =>
      simp only [Option.some_bind]
      by_cases hz : A.length = 0
      · simp [hz]
      · simp only [Option.some_bind, if_neg hz]
        cases hst : npStack (ld.map (fun l => l.ranges)) with
        | none => simp [hst]
        | some R =>
          have hR := npStack_some hst
          have hrows : R.rows = ld.length := by
            rw [hR.1, List.length_map]
          simp only [Option.some_bind]
          unfold polar_to_cartesian
          unfold bcast2
          rw [hrows]
          rw [show (pd.map (fun p => p.pa)).length = pd.length from
            List.length_map _ _]
          rw [bLen_none hl hp (fun hx => hne hx.symm)]
          rfl

/-- C5 amended, witnessed at a 3-row position table and a 4-row laser
table. -/
theorem obstacle_mismatch_raises_witness :
    get_obstacle_data (List.replicate 3 posRowZero)
      (List.replicate 4 laserRowA) = none :=
  obstacle_mismatch_raises _ _ (by simp) (by simp) (by simp)

/-! ### C10: the nearest-obstacle distance never exceeds 8 -/

/-- A concrete successful run: two all-zero position rows fused with two
single-beam scans of known range 2. -/
theorem demo_obstacle_run :
    get_obstacle_data (List.replicate 2 posRowZero)
      (List.replicate 2 laserRowA) = some demoObsTbl := rfl

/-- C10: every `distance_to_nearest_obstacle` value that `get_obstacle_data`
produces is at most 8, whatever the recorded `max_range` is, because the
per-scan minimum is seeded with the literal constant 8. -/
theorem nearest_obstacle_le_8 (pd : List PosRow) (ld : List LaserRow)
    (tbl : List ObsRow) (h : get_obstacle_data pd ld = some tbl) :
    ∀ row ∈ tbl, row.distance_to_nearest_obstacle ≤ 8 := by
  obtain ⟨r0, A, R, RX, RY, OX, OY, h1, h2, h3, h4, h5, h6, h7, h8, h9, h10⟩ :=
    get_obstacle_data_some h
  intro row hrow
  rw [h10] at hrow
  obtain ⟨q, hq, rfl⟩ := List.mem_map.mp hrow
  have hd := zip4_mem_fourth _ _ _ _ _ hq
  obtain ⟨i, _, hqe⟩ := List.mem_map.mp hd
  show q.2.2.2 ≤ 8
  rw [← hqe]
  exact rowMinInitial8_le _

/-- C10 witnessed on the concrete two-scan run. -/
theorem nearest_obstacle_le_8_witness :
    demoObsRow.distance_to_nearest_obstacle ≤ 8 :=
  nearest_obstacle_le_8 _ _ _ demo_obstacle_run demoObsRow
    (by simp [demoObsTbl])

/-! ### C3: the nearest-obstacle distance is a seeded minimum -/

theorem zip4_length_le {α β γ δ : Type} :
    ∀ (as : List α) (bs : List β) (cs : List γ) (ds : List δ),
      (zip4 as bs cs ds).length ≤ as.length ∧
      (zip4 as bs cs ds).length ≤ bs.length ∧
      (zip4 as bs cs ds).length ≤ cs.length ∧
      (zip4 as bs cs ds).length ≤ ds.length
  | a :: as, b :: bs, c :: cs, d :: ds => by
    have := zip4_length_le as bs cs ds
    simp only [zip4, List.length_cons]
    omega
  | [], bs, cs, ds => by
    cases bs <;> cases cs <;> cases ds <;> simp [zip4]
  | a :: as, [], cs, ds => by
    cases cs <;> cases ds <;> simp [zip4]
  | a :: as, b :: bs, [], ds => by
    cases ds <;> simp [zip4]
  | a :: as, b :: bs, c :: cs, [] => by
    simp [zip4]

theorem zip4_getD_eq {α β γ δ : Type} (q0 : α × β × γ × δ) :
    ∀ (as : List α) (bs : List β) (cs : List γ) (ds : List δ) (i : ℕ),
      i < (zip4 as bs cs ds).length →
      (zip4 as bs cs ds).getD i q0 =
        (as.getD i q0.1, bs.getD i q0.2.1, cs.getD i q0.2.2.1,
          ds.getD i q0.2.2.2)
  | a :: as, b :: bs, c :: cs, d :: ds, 0, h => by simp [zip4]
  | a :: as, b :: bs, c :: cs, d :: ds, i + 1, h => by
    simp only [zip4, List.getD_cons_succ]
    exact zip4_getD_eq q0 as bs cs ds i (by
      simpa [zip4] using h)
  | [], bs, cs, ds, i, h => by
    cases bs <;> cases cs <;> cases ds <;> simp [zip4] at h
  | a :: as, [], cs, ds, i, h => by
    cases cs <;> cases ds <;> simp [zip4] at h
  | a :: as, b :: bs, [], ds, i, h => by
    cases ds <;> simp [zip4] at h
  | a :: as, b :: bs, c :: cs, [], i, h => by
    simp [zip4] at h

theorem map_range_getD {α : Type} (d : α) (l : List α) :
    (List.range l.length).map (fun j => l.getD j d) = l := by
  apply List.ext_getElem
  · simp
  · intro i h1 h2
    simp [List.getD_eq_getElem, h2]

theorem obsRow_getD {bs cs : List (List (Option ℝ))} (ts ds : List ℝ)
    (i : ℕ) (hi : i < (zip4 ts bs cs ds).length) :
    (List.map (fun q : ℝ × List (Option ℝ) × List (Option ℝ) × ℝ =>
      ({ time := q.1, obs_x := q.2.1, obs_y := q.2.2.1,
         distance_to_nearest_obstacle := q.2.2.2 } : ObsRow))
      (zip4 ts bs cs ds)).getD i default =
    { time := ts.getD i 0, obs_x := bs.getD i [], obs_y := cs.getD i [],
      distance_to_nearest_obstacle := ds.getD i 0 } := by
  rw [List.getD_eq_getElem _ _ (by simpa using hi), List.getElem_map,
    show (zip4 ts bs cs ds)[i] = (zip4 ts bs cs ds).getD i
      ((0, [], [], 0) : ℝ × List (Option ℝ) × List (Option ℝ) × ℝ) from
      (List.getD_eq_getElem _ _ hi).symm,
    zip4_getD_eq _ _ _ _ _ _ hi]


theorem foldl_min_filterMap (rs : List (Option ℝ)) :
    ∀ acc : ℝ,
      rs.foldl (fun acc x =>
        match x with | some v => min acc v | none => acc) acc =
        (finiteVals rs).foldl min acc := by
  induction rs with
  | nil => intro acc; simp [finiteVals]
  | cons x xs ih =>
    intro acc
    cases x with
    | none => simpa [finiteVals] using ih acc
    | some v => simpa [finiteVals] using ih (min acc v)

/-- C3 amended: for every row of a successful `get_obstacle_data` run,
`distance_to_nearest_obstacle` is the minimum of the scan's finite ranges
SEEDED WITH THE LITERAL CONSTANT 8 (the `initial=8` argument), so it is
`min(8, finite ranges)`; and when every beam of the scan is unknown it is
the literal 8 — not the laser's recorded maximum range bound. -/
theorem nearest_obstacle_min_seeded (pd : List PosRow) (ld : List LaserRow)
    (tbl : List ObsRow) (h : get_obstacle_data pd ld = some tbl) (i : ℕ)
    (hi : i < tbl.length) :
    i < ld.length ∧
    (tbl.getD i default).distance_to_nearest_obstacle =
      (finiteVals ((ld.getD i default).ranges)).foldl min 8 ∧
    ((∀ x ∈ (ld.getD i default).ranges, x = none) →
      (tbl.getD i default).distance_to_nearest_obstacle = 8) := by
  obtain ⟨r0, A, R, RX, RY, OX, OY, h1, h2, h3, h4, h5, h6, h7, h8, h9, h10⟩ :=
    get_obstacle_data_some h
  have hR := npStack_some h4
  have hRrows : R.rows = ld.length := by
    rw [hR.1]
    exact List.length_map _ _
  subst h10
  rw [List.length_map] at hi
  have hlen := zip4_length_le (ld.map (fun l => l.time)) (rowsOf OX)
    (rowsOf OY) ((List.range R.rows).map (fun k =>
      rowMinInitial8 ((List.range R.cols).map (R.entry k))))
  have hild : i < ld.length := by
    have := hlen.1
    simp only [List.length_map] at this
    omega
  have hiR : i < R.rows := by
    have := hlen.2.2.2
    simp only [List.length_map, List.length_range] at this
    omega
  have htbl : (List.map
      (fun q : ℝ × List (Option ℝ) × List (Option ℝ) × ℝ =>
        ({ time := q.1, obs_x := q.2.1, obs_y := q.2.2.1,
           distance_to_nearest_obstacle := q.2.2.2 } : ObsRow))
      (zip4 (ld.map (fun l => l.time)) (rowsOf OX) (rowsOf OY)
        ((List.range R.rows).map (fun k =>
          rowMinInitial8 ((List.range R.cols).map (R.entry k)))))).getD i
      default =
      { time := ((ld.map (fun l => l.time)).getD i 0),
        obs_x := (rowsOf OX).getD i [],
        obs_y := (rowsOf OY).getD i [],
        distance_to_nearest_obstacle :=
          (((List.range R.rows).map (fun k =>
            rowMinInitial8 ((List.range R.cols).map (R.entry k)))).getD i
            0) } := by
    rw [List.getD_eq_getElem _ _ (by simpa using hi), List.getElem_map]
    rw [show (zip4 (ld.map (fun l => l.time)) (rowsOf OX) (rowsOf OY)
        ((List.range R.rows).map (fun k =>
          rowMinInitial8 ((List.range R.cols).map (R.entry k)))))[i] =
      (zip4 (ld.map (fun l => l.time)) (rowsOf OX) (rowsOf OY)
        ((List.range R.rows).map (fun k =>
          rowMinInitial8 ((List.range R.cols).map (R.entry k))))).getD i
        (⟨0, [], [], 0⟩ : ℝ × List (Option ℝ) × List (Option ℝ) × ℝ) from
      (List.getD_eq_getElem _ _ hi).symm]
    rw [zip4_getD_eq _ _ _ _ _ _ hi]
  have hds : ((List.range R.rows).map (fun k =>
      rowMinInitial8 ((List.range R.cols).map (R.entry k)))).getD i 0 =
      rowMinInitial8 ((List.range R.cols).map (R.entry i)) := by
    rw [List.getD_eq_getElem _ _ (by simpa using hiR), List.getElem_map,
      List.getElem_range]
  have hentry : (List.range R.cols).map (R.entry i) =
      (ld.getD i default).ranges := by
    have hcols : R.cols = (ld.getD i default).ranges.length := by
      refine (hR.2.1 ((ld.getD i default).ranges) ?_).symm
      refine List.mem_map.mpr ⟨ld.getD i default, ?_, rfl⟩
      rw [List.getD_eq_getElem _ _ hild]
      exact List.getElem_mem hild
    have he : R.entry i = fun j => ((ld.map (fun l => l.ranges)).getD i
        []).getD j none := by
      rw [hR.2.2]
    have hmapi : (ld.map (fun l => l.ranges)).getD i [] =
        (ld.getD i default).ranges := by
      rw [List.getD_eq_getElem _ _ (by simpa using hild),
        List.getElem_map, List.getD_eq_getElem _ _ hild]
    rw [he, hmapi, hcols]
    exact map_range_getD none _
  have hdist : ((List.map
      (fun q : ℝ × List (Option ℝ) × List (Option ℝ) × ℝ =>
        ({ time := q.1, obs_x := q.2.1, obs_y := q.2.2.1,
           distance_to_nearest_obstacle := q.2.2.2 } : ObsRow))
      (zip4 (ld.map (fun l => l.time)) (rowsOf OX) (rowsOf OY)
        ((List.range R.rows).map (fun k =>
          rowMinInitial8 ((List.range R.cols).map (R.entry k)))))).getD i
      default).distance_to_nearest_obstacle =
      (finiteVals ((ld.getD i default).ranges)).foldl min 8 := by
    rw [htbl]
    show ((List.range R.rows).map (fun k =>
      rowMinInitial8 ((List.range R.cols).map (R.entry k)))).getD i 0 =
      (finiteVals ((ld.getD i default).ranges)).foldl min 8
    rw [hds, hentry]
    exact foldl_min_filterMap _ 8
  refine ⟨hild, hdist, fun hall => ?_⟩
  rw [hdist]
  have hnil : finiteVals ((ld.getD i default).ranges) = [] := by
    unfold finiteVals
    exact List.filterMap_eq_nil_iff.mpr (fun a ha => hall a ha)
  rw [hnil]
  rfl

/-- A second concrete successful run, with recorded `max_range` 10 and a
single known range 9 per scan. -/
theorem demo_obstacle_runB :
    get_obstacle_data (List.replicate 2 posRowZero)
      (List.replicate 2 laserRowB) = some demoObsTblB := rfl

/-- C3 counterexample: with recorded `max_range` 10 and one finite range 9,
the produced `distance_to_nearest_obstacle` is 8 (the literal seed), not 9,
although 9 is the minimum of the finite ranges of the scan; so the claimed
value `min(finite ranges)` (and, for all-unknown scans, the claimed
`max_range` fallback) disagrees with the code. -/
theorem nearest_obstacle_counterexample :
    get_obstacle_data (List.replicate 2 posRowZero)
      (List.replicate 2 laserRowB) = some demoObsTblB ∧
    (demoObsTblB.getD 0 default).distance_to_nearest_obstacle = 8 ∧
    spec_nearest_obstacle laserRowB.ranges laserRowB.max_range = 9 ∧
    (8 : ℝ) ≠ 9 := by
  refine ⟨demo_obstacle_runB, ?_, ?_, by norm_num⟩
  · show min (8 : ℝ) 9 = 8
    exact min_eq_left (by norm_num)
  · rfl

/-- C3 amended, witnessed on the `laserRowB` run: the produced distance is
the seeded minimum `min(8, 9)`. -/
theorem nearest_obstacle_min_seeded_witness :
    (demoObsTblB.getD 0 default).distance_to_nearest_obstacle =
      (finiteVals (((List.replicate 2 laserRowB).getD 0
        default).ranges)).foldl min 8 :=
  (nearest_obstacle_min_seeded _ _ _ demo_obstacle_runB 0
    (by simp [demoObsTblB])).2.1

/-! ### C1: sentinel replacement in the laser table -/

/-- C1: in every table `get_laser_data` builds, every stored range is
either the unknown marker (`none`) or a finite value strictly below the
`max_range` recorded in the first row; a raw range greater than or equal to
that `max_range` (equality included) was replaced by the unknown marker,
never by zero or kept as a number. -/
theorem laser_ranges_sentinel (lines : List (List ℝ)) (tbl : List LaserRow)
    (h : get_laser_data lines = some tbl) :
    ∀ row ∈ tbl, ∀ x ∈ row.ranges,
      x = none ∨ ∃ v : ℝ, x = some v ∧ v < (tbl.headD default).max_range := by
  obtain ⟨sel, hg, h2, htbl⟩ := get_laser_data_some h
  subst htbl
  cases sel with
  | nil => simp at h2
  | cons s0 rest =>
    have hhead : ((List.map (laserRowOf (((s0 :: rest).headD []).getD 5 0))
        (s0 :: rest)).headD default).max_range =
        ((s0 :: rest).headD []).getD 5 0 := rfl
    rw [hhead]
    intro row hrow x hx
    obtain ⟨s, hs, rfl⟩ := List.mem_map.mp hrow
    simp only [laserRowOf] at hx
    obtain ⟨r, hr, rfl⟩ := List.mem_map.mp hx
    unfold sentinelize
    by_cases hc : ((s0 :: rest).headD []).getD 5 0 ≤ r
    · left
      rw [if_pos hc]
    · right
      exact ⟨r, by rw [if_neg hc], not_le.mp hc⟩

theorem demo_laser_cols :
    selectCols usecolsLaser (List.replicate 735 (3 : ℝ)) =
      List.replicate 729 (3 : ℝ) := by
  unfold selectCols
  have hval : ∀ c ∈ usecolsLaser,
      (List.replicate 735 (3 : ℝ)).getD c 0 = (fun _ => (3 : ℝ)) c := by
    intro c hc
    have hlt : c < 735 := by
      have hall : usecolsLaser.all (fun c => decide (c < 735)) = true := by
        decide
      exact of_decide_eq_true (List.all_eq_true.mp hall c hc)
    rw [List.getD_eq_getElem _ _ (by simpa using hlt),
      List.getElem_replicate]
  rw [List.map_congr_left hval, List.map_const']
  rw [show usecolsLaser.length = 729 from by decide]

theorem demo_laser_row :
    laserRowOf 3 (List.replicate 729 (3 : ℝ)) = demoLaserRow := by
  unfold laserRowOf demoLaserRow
  have hget : ∀ k : ℕ, k < 729 → (List.replicate 729 (3 : ℝ)).getD k 0 = 3 := by
    intro k hk
    rw [List.getD_eq_getElem _ _ (by simpa using hk), List.getElem_replicate]
  have hr : (everyOther ((List.replicate 729 (3 : ℝ)).drop 7)).map
      (sentinelize 3) = List.replicate 361 none := by
    rw [drop_replicate, show (729 - 7 : ℕ) = 722 from rfl,
      everyOther_replicate, show ((722 + 1) / 2 : ℕ) = 361 from rfl,
      List.map_replicate]
    rw [show sentinelize 3 3 = none from by
      unfold sentinelize
      rw [if_pos le_rfl]]
  have hint : everyOther ((List.replicate 729 (3 : ℝ)).drop 8) =
      List.replicate 361 (3 : ℝ) := by
    rw [drop_replicate, show (729 - 8 : ℕ) = 721 from rfl,
      everyOther_replicate, show ((721 + 1) / 2 : ℕ) = 361 from rfl]
  rw [hget 0 (by omega), hget 1 (by omega), hget 2 (by omega),
    hget 3 (by omega), hget 4 (by omega), hget 5 (by omega),
    hget 6 (by omega), hr, hint]

/-- The laser table built from the demonstration lines. -/
theorem demo_laser_run :
    get_laser_data demoLaserLines = some demoLaserTbl := by
  have hg : genfromtxt usecolsLaser demoLaserLines =
      some (List.replicate 2 (List.replicate 729 (3 : ℝ))) := by
    rw [show demoLaserLines = (List.replicate 735 (3 : ℝ)) ::
      [List.replicate 735 (3 : ℝ)] from rfl]
    unfold genfromtxt
    dsimp only
    rw [if_pos (by
      simp only [List.all_cons, List.all_nil, List.length_replicate,
        beq_self_eq_true, Bool.and_true, Bool.true_and]
      decide)]
    rw [List.map_cons, List.map_cons, List.map_nil, demo_laser_cols]
    rfl
  unfold get_laser_data
  rw [hg]
  dsimp only
  rw [if_neg (by simp)]
  have hmr : ((List.replicate 2 (List.replicate 729 (3 : ℝ))).headD
      []).getD 5 0 = 3 := by
    rw [show (List.replicate 2 (List.replicate 729 (3 : ℝ))).headD [] =
      List.replicate 729 (3 : ℝ) from rfl]
    rw [List.getD_eq_getElem _ _ (by simp), List.getElem_replicate]
  rw [hmr, List.map_replicate, demo_laser_row]
  rfl

/-- C1 witnessed on the demonstration run: the hypothesis holds at a
concrete input, and a stored range exactly equal to the first row's
`max_range` shows up as the unknown marker. -/
theorem laser_ranges_sentinel_witness :
    get_laser_data demoLaserLines = some demoLaserTbl ∧
    ((none : Option ℝ) = none ∨ ∃ v : ℝ, (none : Option ℝ) = some v ∧
      v < (demoLaserTbl.headD default).max_range) :=
  ⟨demo_laser_run,
    laser_ranges_sentinel _ _ demo_laser_run demoLaserRow
      (by simp [demoLaserTbl]) none (by simp [demoLaserRow])⟩

/-! ### C6: the selected columns and their split -/

/-- C6: `get_laser_data` selects exactly column 0 plus columns 7 through
734 of each data line; within the selected row the first seven values are
the scalar metadata (time, from column 0, prepended to columns 7..12), and
the rest splits into ranges = the even offsets relative to the start of the
pair block (source columns 13, 15, ..., 733) and intensities = the odd
offsets (source columns 14, 16, ..., 734). -/
theorem laser_column_selection (lines : List (List ℝ)) (tbl : List LaserRow)
    (h : get_laser_data lines = some tbl) :
    (∀ c : ℕ, c ∈ usecolsLaser ↔ (c = 0 ∨ (7 ≤ c ∧ c ≤ 734))) ∧
    ∀ i : ℕ, i < tbl.length →
      i < lines.length ∧
      (tbl.getD i default).time = (lines.getD i []).getD 0 0 ∧
      (tbl.getD i default).scan_id =
        truncZ ((lines.getD i []).getD 7 0) ∧
      (tbl.getD i default).min_angle = (lines.getD i []).getD 8 0 ∧
      (tbl.getD i default).max_angle = (lines.getD i []).getD 9 0 ∧
      (tbl.getD i default).resolution = (lines.getD i []).getD 10 0 ∧
      (tbl.getD i default).max_range = (lines.getD i []).getD 11 0 ∧
      (tbl.getD i default).count = truncZ ((lines.getD i []).getD 12 0) ∧
      (tbl.getD i default).ranges = (List.range 361).map (fun j =>
        sentinelize ((tbl.getD 0 default).max_range)
          ((lines.getD i []).getD (13 + 2 * j) 0)) ∧
      (tbl.getD i default).intensities = (List.range 361).map (fun j =>
        (lines.getD i []).getD (14 + 2 * j) 0) := by
  obtain ⟨sel, hg, h2, htbl⟩ := get_laser_data_some h
  have hsel := genfromtxt_some hg
  constructor
  · intro c
    simp only [usecolsLaser, List.mem_cons, List.mem_range'_1]
    omega
  · intro i hi
    have hlt : i < lines.length := by
      rw [htbl, List.length_map, hsel, List.length_map] at hi
      exact hi
    have hlts : i < sel.length := by
      rw [htbl, List.length_map] at hi
      exact hi
    refine ⟨hlt, ?_⟩
    have hgm : ∀ (j : ℕ), j < sel.length → sel.getD j [] =
        selectCols usecolsLaser (lines.getD j []) := by
      intro j hj
      have hj2 : j < lines.length := by
        rw [hsel, List.length_map] at hj
        exact hj
      rw [hsel, List.getD_eq_getElem _ _ (by simpa using hj2),
        List.getElem_map, List.getD_eq_getElem _ _ hj2]
    -- the i-th table row
    have hrow : tbl.getD i default =
        laserRowOf ((sel.headD []).getD 5 0)
          (selectCols usecolsLaser (lines.getD i [])) := by
      rw [htbl, List.getD_eq_getElem _ _ (by simpa [htbl] using hi),
        List.getElem_map, ← hgm i hlts, List.getD_eq_getElem _ _ hlts]
    -- the recorded first-row max_range
    have h0 : (0 : ℕ) < sel.length := by omega
    have hhd0 : sel.headD [] = sel.getD 0 [] := by
      cases sel with
      | nil => rfl
      | cons s0 srest => rfl
    have hmr : (tbl.getD 0 default).max_range = (sel.headD []).getD 5 0 := by
      have hrow0 : tbl.getD 0 default =
          laserRowOf ((sel.headD []).getD 5 0) (sel.getD 0 []) := by
        rw [htbl, List.getD_eq_getElem _ _ (by simpa [htbl] using h0),
          List.getElem_map, List.getD_eq_getElem _ _ h0]
      rw [hrow0]
      show (sel.getD 0 []).getD 5 0 = (sel.headD []).getD 5 0
      rw [hhd0]
    rw [hrow, hmr]
    have hcol : ∀ k v : ℕ, k < 729 → usecolsLaser.getD k 0 = v →
        (selectCols usecolsLaser (lines.getD i [])).getD k 0 =
          (lines.getD i []).getD v 0 := by
      intro k v hk hv
      rw [selectCols_getD _ k hk, hv]
    refine ⟨hcol 0 0 (by omega) (by decide),
      congrArg truncZ (hcol 1 7 (by omega) (by decide)),
      hcol 2 8 (by omega) (by decide), hcol 3 9 (by omega) (by decide),
      hcol 4 10 (by omega) (by decide), hcol 5 11 (by omega) (by decide),
      congrArg truncZ (hcol 6 12 (by omega) (by decide)), ?_, ?_⟩
    · -- ranges
      show (everyOther ((selectCols usecolsLaser (lines.getD i [])).drop
          7)).map (sentinelize ((sel.headD []).getD 5 0)) = _
      rw [show selectCols usecolsLaser (lines.getD i []) =
        usecolsLaser.map (fun c => (lines.getD i []).getD c 0) from rfl]
      rw [← List.map_drop, everyOther_map]
      rw [show everyOther (usecolsLaser.drop 7) =
        (List.range 361).map (fun j => 13 + 2 * j) from by decide]
      rw [List.map_map, List.map_map]
      exact List.map_congr_left (fun a ha => rfl)
    · -- intensities
      show everyOther ((selectCols usecolsLaser (lines.getD i [])).drop 8) = _
      rw [show selectCols usecolsLaser (lines.getD i []) =
        usecolsLaser.map (fun c => (lines.getD i []).getD c 0) from rfl]
      rw [← List.map_drop, everyOther_map]
      rw [show everyOther (usecolsLaser.drop 8) =
        (List.range 361).map (fun j => 14 + 2 * j) from by decide]
      rw [List.map_map]
      exact List.map_congr_left (fun a ha => rfl)

/-- C6 witnessed on the demonstration run: the recorded `max_range` of row
0 is the value at source column 11 of line 0. -/
theorem laser_column_selection_witness :
    (demoLaserTbl.getD 0 default).max_range =
      (demoLaserLines.getD 0 []).getD 11 0 :=
  ((laser_column_selection _ _ demo_laser_run).2 0
    (by simp [demoLaserTbl])).2.2.2.2.2.2.1


/-! ### C7: the acceleration column -/

/-- C7: for every position table `get_position_data` builds from n data
lines, the table (hence its `a` column) has exactly n rows, `a[0] == 0`
exactly, and for every i >= 1, `a[i]` is the forward first-difference of
`scalar_speed` divided by the first-difference of `time`. -/
theorem position_accel_rows (lines : List (List ℝ)) (target : ℝ × ℝ)
    (tbl : List PosRow) (h : get_position_data lines target = some tbl) :
    tbl.length = lines.length ∧
    (tbl.getD 0 default).a = 0 ∧
    ∀ i : ℕ, 1 ≤ i → i < tbl.length →
      (tbl.getD i default).a =
        ((tbl.getD i default).scalar_speed -
          (tbl.getD (i - 1) default).scalar_speed) /
        ((tbl.getD i default).time - (tbl.getD (i - 1) default).time) := by
  unfold get_position_data at h
  cases hg : genfromtxt usecolsPosition lines with
  | none =>
    rw [hg] at h
    exact absurd h (by simp)
  | some sel =>
    rw [hg] at h
    dsimp only at h
    by_cases h2 : sel.length < 2
    · rw [if_pos h2] at h
      exact absurd h (by simp)
    · rw [if_neg h2] at h
      have htbl := (Option.some.inj h).symm
      have hsel := genfromtxt_some hg
      have hlenT : (sel.map (fun s => s.getD 0 0)).length = sel.length :=
        List.length_map _ _
      have hlenS : (List.zipWith (fun x y => Real.sqrt (x ^ 2 + y ^ 2))
          (sel.map (fun s => s.getD 4 0))
          (sel.map (fun s => s.getD 5 0))).length = sel.length := by
        rw [List.length_zipWith, List.length_map, List.length_map]
        simp
      have htblLen : tbl.length = sel.length := by
        rw [htbl, List.length_map, List.length_range]
      refine ⟨?_, ?_, ?_⟩
      · rw [htblLen, hsel, List.length_map]
      · rw [htbl, getD_range_map _ default sel.length 0 (by omega)]
        rfl
      · intro i h1 hilt
        rw [htblLen] at hilt
        obtain ⟨k, rfl⟩ : ∃ k, i = k + 1 := ⟨i - 1, by omega⟩
        have hik : k < sel.length := by omega
        have hsub : k + 1 - 1 = k := by omega
        rw [hsub, htbl,
          getD_range_map _ default sel.length (k + 1) hilt,
          getD_range_map _ default sel.length k hik]
        show (0 :: List.zipWith (fun ds dt => ds / dt)
            (npdiff (List.zipWith (fun x y => Real.sqrt (x ^ 2 + y ^ 2))
              (sel.map (fun s => s.getD 4 0))
              (sel.map (fun s => s.getD 5 0))))
            (npdiff (sel.map (fun s => s.getD 0 0)))).getD (k + 1) 0 = _
        rw [List.getD_cons_succ]
        have hkz : k < (List.zipWith (fun ds dt => ds / dt)
            (npdiff (List.zipWith (fun x y => Real.sqrt (x ^ 2 + y ^ 2))
              (sel.map (fun s => s.getD 4 0))
              (sel.map (fun s => s.getD 5 0))))
            (npdiff (sel.map (fun s => s.getD 0 0)))).length := by
          rw [List.length_zipWith, npdiff_length, npdiff_length, hlenS, hlenT]
          simp
          omega
        have hkS : k < (npdiff (List.zipWith
            (fun x y => Real.sqrt (x ^ 2 + y ^ 2))
            (sel.map (fun s => s.getD 4 0))
            (sel.map (fun s => s.getD 5 0)))).length := by
          rw [npdiff_length, hlenS]
          omega
        have hkT : k < (npdiff (sel.map (fun s => s.getD 0 0))).length := by
          rw [npdiff_length, hlenT]
          omega
        rw [List.getD_eq_getElem _ _ hkz, List.getElem_zipWith,
          ← List.getD_eq_getElem _ _ hkS, ← List.getD_eq_getElem _ _ hkT]
        rw [npdiff_getD _ k (by rw [hlenS]; omega),
          npdiff_getD _ k (by rw [hlenT]; omega)]

theorem demo_position_parse :
    genfromtxt usecolsPosition demoPosLines =
      some (demoPosLines.map (selectCols usecolsPosition)) := by
  rw [show demoPosLines = (List.replicate 13 (0 : ℝ)) ::
    [List.replicate 13 (1 : ℝ)] from rfl]
  unfold genfromtxt
  dsimp only
  rw [if_pos (by decide)]

/-- C7 witnessed on a two-line position stream. -/
theorem position_accel_rows_witness :
    ∃ tbl, get_position_data demoPosLines (0, 0) = some tbl ∧
      tbl.length = demoPosLines.length ∧ (tbl.getD 0 default).a = 0 := by
  have hsome : ∃ tbl, get_position_data demoPosLines (0, 0) = some tbl := by
    unfold get_position_data
    rw [demo_position_parse]
    dsimp only
    rw [if_neg (by simp [demoPosLines])]
    exact ⟨_, rfl⟩
  obtain ⟨tbl, htbl⟩ := hsome
  have hp := position_accel_rows demoPosLines (0, 0) tbl htbl
  exact ⟨tbl, htbl, hp.1, hp.2.1⟩





/-! ### C2: obstacle projection round trip -/

theorem getD_map_lt {α β : Type} (f : α → β) (l : List α) (dA : α)
    (dB : β) (i : ℕ) (hi : i < l.length) :
    (l.map f).getD i dB = f (l.getD i dA) := by
  rw [List.getD_eq_getElem _ _ (by simpa using hi), List.getElem_map,
    List.getD_eq_getElem _ _ hi]

theorem bcast2_entry {β γ δ : Type} (f : β → γ → δ) (A : NArr β)
    (B : NArr γ) {C : NArr δ} (hr : B.rows = A.rows) (hc : B.cols = A.cols)
    (hC : bcast2 f A B = some C) (i j : ℕ) (hi : i < A.rows)
    (hj : j < A.cols) :
    C.rows = A.rows ∧ C.cols = A.cols ∧
      C.entry i j = f (A.entry i j) (B.entry i j) := by
  rw [bcast2_same f A B hr hc] at hC
  have hCv := (Option.some.inj hC).symm
  subst hCv
  refine ⟨rfl, rfl, ?_⟩
  show f (A.entry (bIx A.rows i) (bIx A.cols j))
    (B.entry (bIx B.rows i) (bIx B.cols j)) = f (A.entry i j) (B.entry i j)
  rw [bIx_lt hi, bIx_lt hj, bIx_lt (hr ▸ hi), bIx_lt (hc ▸ hj)]

/-- C2: for every scan row i and beam j of a successful `get_obstacle_data`
run on ordinally aligned tables (equal row counts, and the first scan's
`count` matching the common ranges width), an unknown range propagates to
unknown `obs_x`/`obs_y` entries — never coerced to 0 — and a finite
nonnegative range r satisfies `sqrt((obs_x - px)^2 + (obs_y - py)^2) = r`
against the paired position row: the world-frame projection inverts the
polar-to-Cartesian transform exactly. -/
theorem obstacle_roundtrip (pd : List PosRow) (ld : List LaserRow)
    (tbl : List ObsRow) (L : ℕ) (h : get_obstacle_data pd ld = some tbl)
    (hlen : pd.length = ld.length)
    (hw : ∀ row ∈ ld, row.ranges.length = L)
    (hcnt : (ld.headD default).count = (L : ℤ))
    (i j : ℕ) (hi : i < tbl.length) (hj : j < L) :
    ((ld.getD i default).ranges.getD j none = none →
      (tbl.getD i default).obs_x.getD j none = none ∧
      (tbl.getD i default).obs_y.getD j none = none) ∧
    (∀ r : ℝ, (ld.getD i default).ranges.getD j none = some r → 0 ≤ r →
      ∃ ox oy, (tbl.getD i default).obs_x.getD j none = some ox ∧
        (tbl.getD i default).obs_y.getD j none = some oy ∧
        Real.sqrt ((ox - (pd.getD i default).px) ^ 2 +
          (oy - (pd.getD i default).py) ^ 2) = r) := by
  obtain ⟨r0, A, R, RX, RY, OX, OY, h1, h2, h3, h4, h5, h6, h7, h8, h9, h10⟩ :=
    get_obstacle_data_some h
  have hR := npStack_some h4
  have hRrows : R.rows = ld.length := by
    rw [hR.1]
    exact List.length_map _ _
  have hr0 : ld.headD default = r0 := by
    rw [List.headD_eq_head?_getD, h1]
    rfl
  have hr0mem : r0 ∈ ld := by
    cases ld with
    | nil => simp at h1
    | cons l0 tl =>
      have hl0 : l0 = r0 := by simpa using h1
      rw [← hl0]
      exact List.mem_cons_self _ _
  have hAL : A.length = L := by
    have hcnt2 : r0.count = (L : ℤ) := by rw [← hr0]; exact hcnt
    rw [np_linspace_length h2, hcnt2]
    simp
  have hRcols : R.cols = L := by
    rw [← hR.2.1 r0.ranges (List.mem_map.mpr ⟨r0, hr0mem, rfl⟩)]
    exact hw r0 hr0mem
  -- bounds for row i
  have hitbl : i < (zip4 (ld.map (fun l => l.time)) (rowsOf OX) (rowsOf OY)
      ((List.range R.rows).map (fun k =>
        rowMinInitial8 ((List.range R.cols).map (R.entry k))))).length := by
    rw [h10, List.length_map] at hi
    exact hi
  have hzl := zip4_length_le (ld.map (fun l => l.time)) (rowsOf OX)
    (rowsOf OY) ((List.range R.rows).map (fun k =>
      rowMinInitial8 ((List.range R.cols).map (R.entry k))))
  have hild : i < ld.length := by
    have h1l := hzl.1
    simp only [List.length_map] at h1l
    omega
  have hipd : i < pd.length := by omega
  have hiR : i < R.rows := by rw [hRrows]; exact hild
  have hjR : j < R.cols := by rw [hRcols]; exact hj
  have hipa : i < (pd.map (fun p => p.pa)).length := by
    rw [List.length_map]; exact hipd
  -- the polar broadcast, pointwise
  have hAngr : ((⟨(pd.map (fun p => p.pa)).length, A.length,
      fun a b => (pd.map (fun p => p.pa)).getD a 0 + A.getD b 0⟩ :
      NArr ℝ)).rows = R.rows := by
    show (pd.map (fun p => p.pa)).length = R.rows
    rw [List.length_map, hRrows, hlen]
  have hAngc : ((⟨(pd.map (fun p => p.pa)).length, A.length,
      fun a b => (pd.map (fun p => p.pa)).getD a 0 + A.getD b 0⟩ :
      NArr ℝ)).cols = R.cols := by
    show A.length = R.cols
    rw [hAL, hRcols]
  have hX := bcast2_entry _ R _ hAngr hAngc h5 i j hiR hjR
  have hY := bcast2_entry _ R _ hAngr hAngc h6 i j hiR hjR
  -- the shift broadcasts, pointwise
  have hPxr : RX.rows = (⟨(pd.map (fun p => p.px)).length, RX.cols,
      fun a _ => (pd.map (fun p => p.px)).getD a 0⟩ :
      NArr ℝ).rows := by
    show RX.rows = (pd.map (fun p => p.px)).length
    rw [hX.1, List.length_map, hRrows, hlen]
  have hPyr : RY.rows = (⟨(pd.map (fun p => p.py)).length, RX.cols,
      fun a _ => (pd.map (fun p => p.py)).getD a 0⟩ :
      NArr ℝ).rows := by
    show RY.rows = (pd.map (fun p => p.py)).length
    rw [hY.1, List.length_map, hRrows, hlen]
  have hipx : i < (⟨(pd.map (fun p => p.px)).length, RX.cols,
      fun a _ => (pd.map (fun p => p.px)).getD a 0⟩ :
      NArr ℝ).rows := by
    show i < (pd.map (fun p => p.px)).length
    rw [List.length_map]
    exact hipd
  have hipy : i < (⟨(pd.map (fun p => p.py)).length, RX.cols,
      fun a _ => (pd.map (fun p => p.py)).getD a 0⟩ :
      NArr ℝ).rows := by
    show i < (pd.map (fun p => p.py)).length
    rw [List.length_map]
    exact hipd
  have hjx : j < (⟨(pd.map (fun p => p.px)).length, RX.cols,
      fun a _ => (pd.map (fun p => p.px)).getD a 0⟩ :
      NArr ℝ).cols := by
    show j < RX.cols
    rw [hX.2.1]
    exact hjR
  have hjy : j < (⟨(pd.map (fun p => p.py)).length, RX.cols,
      fun a _ => (pd.map (fun p => p.py)).getD a 0⟩ :
      NArr ℝ).cols := by
    show j < RX.cols
    rw [hX.2.1]
    exact hjR
  have hOXe := bcast2_entry _ _ RX hPxr rfl h8 i j hipx hjx
  have hOYe := bcast2_entry _ _ RY hPyr (by
    show RY.cols = RX.cols
    rw [hX.2.1, hY.2.1]) h9 i j hipy hjy
  -- entries of R
  have hRij : R.entry i j = (ld.getD i default).ranges.getD j none := by
    rw [hR.2.2]
    show ((ld.map (fun l => l.ranges)).getD i []).getD j none = _
    rw [getD_map_lt (fun l => l.ranges) ld default [] i hild]
  -- the output row i
  have hrow : tbl.getD i default =
      { time := (ld.map (fun l => l.time)).getD i 0,
        obs_x := (rowsOf OX).getD i [],
        obs_y := (rowsOf OY).getD i [],
        distance_to_nearest_obstacle :=
          ((List.range R.rows).map (fun k =>
            rowMinInitial8 ((List.range R.cols).map (R.entry k)))).getD i
            0 } := by
    rw [h10]
    exact obsRow_getD _ _ i hitbl
  have hiOX : i < OX.rows := by
    rw [hOXe.1]
    exact hipx
  have hiOY : i < OY.rows := by
    rw [hOYe.1]
    exact hipy
  have hjOX : j < OX.cols := by
    rw [hOXe.2.1]
    exact hjx
  have hjOY : j < OY.cols := by
    rw [hOYe.2.1]
    exact hjy
  have hx : (tbl.getD i default).obs_x.getD j none = OX.entry i j := by
    rw [hrow]
    show ((rowsOf OX).getD i []).getD j none = OX.entry i j
    unfold rowsOf
    rw [getD_range_map _ [] OX.rows i hiOX,
      getD_range_map _ none OX.cols j hjOX]
  have hy : (tbl.getD i default).obs_y.getD j none = OY.entry i j := by
    rw [hrow]
    show ((rowsOf OY).getD i []).getD j none = OY.entry i j
    unfold rowsOf
    rw [getD_range_map _ [] OY.rows i hiOY,
      getD_range_map _ none OY.cols j hjOY]
  -- assemble the entry formulas
  have hOXv : OX.entry i j = ((ld.getD i default).ranges.getD j none).map
      (fun v => (pd.getD i default).px + v * Real.cos
        ((pd.map (fun p => p.pa)).getD i 0 + A.getD j 0)) := by
    rw [hOXe.2.2, hX.2.2, hRij]
    show Option.map _ (Option.map _ _) = _
    rw [Option.map_map]
    congr 1
    funext v
    show (pd.map (fun p => p.px)).getD i 0 + v * Real.cos _ = _
    rw [getD_map_lt (fun p => p.px) pd default 0 i hipd]
  have hOYv : OY.entry i j = ((ld.getD i default).ranges.getD j none).map
      (fun v => (pd.getD i default).py + v * Real.sin
        ((pd.map (fun p => p.pa)).getD i 0 + A.getD j 0)) := by
    rw [hOYe.2.2, hY.2.2, hRij]
    show Option.map _ (Option.map _ _) = _
    rw [Option.map_map]
    congr 1
    funext v
    show (pd.map (fun p => p.py)).getD i 0 + v * Real.sin _ = _
    rw [getD_map_lt (fun p => p.py) pd default 0 i hipd]
  constructor
  · intro hnone
    rw [hx, hy, hOXv, hOYv, hnone]
    exact ⟨rfl, rfl⟩
  · intro r hr hr0le
    rw [hx, hy, hOXv, hOYv, hr]
    refine ⟨_, _, rfl, rfl, ?_⟩
    have hsq : ((pd.getD i default).px + r * Real.cos
          ((pd.map (fun p => p.pa)).getD i 0 + A.getD j 0) -
          (pd.getD i default).px) ^ 2 +
        ((pd.getD i default).py + r * Real.sin
          ((pd.map (fun p => p.pa)).getD i 0 + A.getD j 0) -
          (pd.getD i default).py) ^ 2 =
        r ^ 2 * (Real.sin ((pd.map (fun p => p.pa)).getD i 0 + A.getD j 0) ^ 2 +
          Real.cos ((pd.map (fun p => p.pa)).getD i 0 + A.getD j 0) ^ 2) := by
      ring
    rw [hsq, Real.sin_sq_add_cos_sq, mul_one, Real.sqrt_sq hr0le]

/-- C2 witnessed on the two-scan demonstration run: beam 0 of row 0 has
finite range 2 and its projected point lies at distance exactly 2 from the
paired pose. -/
theorem obstacle_roundtrip_witness :
    ∃ ox oy, (demoObsTbl.getD 0 default).obs_x.getD 0 none = some ox ∧
      (demoObsTbl.getD 0 default).obs_y.getD 0 none = some oy ∧
      Real.sqrt ((ox - ((List.replicate 2 posRowZero).getD 0 default).px) ^ 2 +
        (oy - ((List.replicate 2 posRowZero).getD 0 default).py) ^ 2) = 2 :=
  (obstacle_roundtrip (List.replicate 2 posRowZero)
    (List.replicate 2 laserRowA) demoObsTbl 1 demo_obstacle_run (by simp)
    (fun row hrow => by rw [List.eq_of_mem_replicate hrow]; rfl)
    rfl 0 0 (by simp [demoObsTbl]) (by omega)).2 2 rfl (by norm_num)



/-! ### C8: grouping -/

theorem pyGroupBy_ne_nil {T K : Type} [DecidableEq K] (key : T → K)
    (x : T) (xs : List T) : pyGroupBy key (x :: xs) ≠ [] := by
  unfold pyGroupBy
  cases hg : pyGroupBy key xs with
  | nil => simp
  | cons q rest =>
    obtain ⟨k, g⟩ := q
    by_cases hk : key x = k
    · simp [hk]
    · simp [hk]

theorem pyGroupBy_sound {T K : Type} [DecidableEq K] (key : T → K) :
    ∀ (l : List T) (p : K × List T), p ∈ pyGroupBy key l →
      ∀ x ∈ p.2, key x = p.1
  | [], p, hp => by simp [pyGroupBy] at hp
  | x :: xs, p, hp => by
    unfold pyGroupBy at hp
    cases hg : pyGroupBy key xs with
    | nil =>
      rw [hg] at hp
      simp only [List.mem_singleton] at hp
      subst hp
      intro y hy
      simp only [List.mem_singleton] at hy
      subst hy
      rfl
    | cons q rest =>
      obtain ⟨k, g⟩ := q
      rw [hg] at hp
      dsimp only at hp
      by_cases hk : key x = k
      · rw [if_pos hk] at hp
        rcases List.mem_cons.mp hp with h | h
        · subst h
          intro y hy
          rcases List.mem_cons.mp hy with h2 | h2
          · subst h2
            rfl
          · have h3 := pyGroupBy_sound key xs (k, g)
              (by rw [hg]; exact List.mem_cons_self _ _) y h2
            show key y = key x
            rw [h3]
            exact hk.symm
        · exact pyGroupBy_sound key xs p
            (by rw [hg]; exact List.mem_cons_of_mem _ h)
      · rw [if_neg hk] at hp
        rcases List.mem_cons.mp hp with h | h
        · subst h
          intro y hy
          simp only [List.mem_singleton] at hy
          subst hy
          rfl
        · exact pyGroupBy_sound key xs p (by rw [hg]; exact h)

theorem pyGroupBy_mem_of {T K : Type} [DecidableEq K] (key : T → K) :
    ∀ (l : List T) (x : T), x ∈ l →
      ∃ p, p ∈ pyGroupBy key l ∧ x ∈ p.2
  | [], x, hx => by simp at hx
  | x0 :: xs, x, hx => by
    unfold pyGroupBy
    cases hg : pyGroupBy key xs with
    | nil =>
      have hxs : xs = [] := by
        cases xs with
        | nil => rfl
        | cons y ys => exact absurd hg (pyGroupBy_ne_nil key y ys)
      subst hxs
      simp only [List.mem_singleton] at hx
      subst hx
      exact ⟨(key x, [x]), by simp, by simp⟩
    | cons q rest =>
      obtain ⟨k, g⟩ := q
      dsimp only
      rcases List.mem_cons.mp hx with h | h
      · subst h
        by_cases hk : key x = k
        · rw [if_pos hk]
          exact ⟨(key x, x :: g), List.mem_cons_self _ _,
            List.mem_cons_self _ _⟩
        · rw [if_neg hk]
          exact ⟨(key x, [x]), List.mem_cons_self _ _, by simp⟩
      · obtain ⟨p, hp, hxp⟩ := pyGroupBy_mem_of key xs x h
        rw [hg] at hp
        rcases List.mem_cons.mp hp with h2 | h2
        · subst h2
          by_cases hk : key x0 = k
          · rw [if_pos hk]
            exact ⟨(key x0, x0 :: g), List.mem_cons_self _ _,
              List.mem_cons_of_mem _ hxp⟩
          · rw [if_neg hk]
            exact ⟨(k, g), List.mem_cons_of_mem _ (List.mem_cons_self _ _),
              hxp⟩
        · by_cases hk : key x0 = k
          · rw [if_pos hk]
            exact ⟨p, List.mem_cons_of_mem _ h2, hxp⟩
          · rw [if_neg hk]
            exact ⟨p, List.mem_cons_of_mem _ (List.mem_cons_of_mem _ h2),
              hxp⟩

theorem pyGroupBy_mem_to {T K : Type} [DecidableEq K] (key : T → K) :
    ∀ (l : List T) (p : K × List T), p ∈ pyGroupBy key l →
      ∀ x ∈ p.2, x ∈ l
  | [], p, hp => by simp [pyGroupBy] at hp
  | x0 :: xs, p, hp => by
    intro x hx
    unfold pyGroupBy at hp
    cases hg : pyGroupBy key xs with
    | nil =>
      rw [hg] at hp
      simp only [List.mem_singleton] at hp
      subst hp
      simp only [List.mem_singleton] at hx
      subst hx
      exact List.mem_cons_self _ _
    | cons q rest =>
      obtain ⟨k, g⟩ := q
      rw [hg] at hp
      dsimp only at hp
      by_cases hk : key x0 = k
      · rw [if_pos hk] at hp
        rcases List.mem_cons.mp hp with h | h
        · subst h
          rcases List.mem_cons.mp hx with h2 | h2
          · subst h2
            exact List.mem_cons_self _ _
          · exact List.mem_cons_of_mem _ (pyGroupBy_mem_to key xs (k, g)
              (by rw [hg]; exact List.mem_cons_self _ _) x h2)
        · exact List.mem_cons_of_mem _ (pyGroupBy_mem_to key xs p
            (by rw [hg]; exact List.mem_cons_of_mem _ h) x hx)
      · rw [if_neg hk] at hp
        rcases List.mem_cons.mp hp with h | h
        · subst h
          simp only [List.mem_singleton] at hx
          subst hx
          exact List.mem_cons_self _ _
        · exact List.mem_cons_of_mem _ (pyGroupBy_mem_to key xs p
            (by rw [hg]; exact h) x hx)



theorem dictInsert_not_mem {K V : Type} [DecidableEq K] (d : List (K × V))
    (k : K) (v : V) (h : ∀ q ∈ d, q.1 ≠ k) :
    dictInsert d k v = d ++ [(k, v)] := by
  unfold dictInsert
  rw [if_neg (by
    simp only [List.any_eq_true, decide_eq_true_eq, not_exists, not_and]
    exact fun q hq => h q hq)]

theorem foldl_dictInsert {K V : Type} [DecidableEq K] :
    ∀ (ps : List (K × V)) (d : List (K × V)),
      (∀ p ∈ ps, ∀ q ∈ d, q.1 ≠ p.1) → (ps.map Prod.fst).Nodup →
      ps.foldl (fun d p => dictInsert d p.1 p.2) d = d ++ ps
  | [], d, _, _ => by simp
  | p :: ps, d, hd, hnd => by
    have hndc : (p.1 :: ps.map Prod.fst).Nodup := by
      rw [← List.map_cons]
      exact hnd
    have hnd2 := List.nodup_cons.mp hndc
    simp only [List.foldl_cons]
    rw [dictInsert_not_mem d p.1 p.2
      (fun q hq => hd p (List.mem_cons_self _ _) q hq)]
    rw [foldl_dictInsert ps (d ++ [(p.1, p.2)]) ?_ hnd2.2]
    · simp
    · intro r hr q hq
      rcases List.mem_append.mp hq with h | h
      · exact hd r (List.mem_cons_of_mem _ hr) q h
      · simp only [List.mem_singleton] at h
        subst h
        show p.1 ≠ r.1
        intro he
        exact hnd2.1 (he ▸ List.mem_map.mpr ⟨r, hr, rfl⟩)

theorem pyDict_of_nodup {K V : Type} [DecidableEq K] (ps : List (K × V))
    (h : (ps.map Prod.fst).Nodup) : pyDict ps = ps := by
  unfold pyDict
  rw [foldl_dictInsert ps [] (by simp) h]
  simp

theorem dget_eq_of_mem {K V : Type} [DecidableEq K] :
    ∀ (ps : List (K × V)) (k : K) (g : V), (ps.map Prod.fst).Nodup →
      (k, g) ∈ ps → dget ps k = some g
  | [], k, g, _, hmem => by simp at hmem
  | p :: ps, k, g, hnd, hmem => by
    have hndc : (p.1 :: ps.map Prod.fst).Nodup := by
      rw [← List.map_cons]
      exact hnd
    have hnd2 := List.nodup_cons.mp hndc
    unfold dget
    rcases List.mem_cons.mp hmem with h | h
    · subst h
      rw [List.find?_cons_of_pos _ (by simp)]
      rfl
    · have hp1 : ¬p.1 = k := by
        intro he
        exact hnd2.1 (he ▸ List.mem_map.mpr ⟨(k, g), h, he ▸ rfl⟩)
      rw [List.find?_cons_of_neg _ (by simpa using hp1)]
      exact dget_eq_of_mem ps k g hnd2.2 h

theorem dget_mem {K V : Type} [DecidableEq K] :
    ∀ (ps : List (K × V)) (k : K) (g : V), dget ps k = some g →
      (k, g) ∈ ps
  | [], k, g, h => by simp [dget] at h
  | p :: ps, k, g, h => by
    unfold dget at h
    by_cases hp : p.1 = k
    · rw [List.find?_cons_of_pos _ (by simp [hp])] at h
      simp only [Option.map_some', Option.some.injEq] at h
      have hpe : p = (k, g) := by
        obtain ⟨p1, p2⟩ := p
        simp only [Prod.mk.injEq]
        exact ⟨hp, h⟩
      rw [← hpe]
      exact List.mem_cons_self _ _
    · rw [List.find?_cons_of_neg _ (by simp [hp])] at h
      exact List.mem_cons_of_mem _ (dget_mem ps k g h)

theorem group_by_eq_of_clustered {T K : Type} [DecidableEq K] (l : List T)
    (key : T → K) (h : Clustered key l) :
    group_by l key = pyGroupBy key l := by
  unfold group_by
  exact pyDict_of_nodup _ h



/-- C8 counterexample: on a record sequence whose algorithms are not
consecutive (vfh, nd, vfh), `group_by` — built on `itertools.groupby`,
which only groups consecutive runs, under a dict comprehension in which a
repeated key overwrites the earlier group — loses the first vfh record:
it appears in no algorithm-by-difficulty bucket at all, so the grouping is
not a complete partition of an arbitrary sequence. -/
theorem group_by_drops_record_counterexample :
    ∃ x ∈ demoLogsBad, ∀ a d : String, x ∉ nestedBucket demoLogsBad a d := by
  refine ⟨logRec 1 "vfh" "d", by simp [demoLogsBad], ?_⟩
  intro a d hmem
  have hnest : group_by_algorithm_and_difficulty demoLogsBad =
      [("vfh", [("d", [logRec 3 "vfh" "d"])]),
       ("nd", [("d", [logRec 2 "nd" "d"])])] := rfl
  unfold nestedBucket at hmem
  rw [hnest] at hmem
  cases hdo : dget [("vfh", [("d", [logRec 3 "vfh" "d"])]),
      ("nd", [("d", [logRec 2 "nd" "d"])])] a with
  | none =>
    rw [hdo] at hmem
    simp at hmem
  | some inner =>
    rw [hdo] at hmem
    dsimp only at hmem
    have hmemO := dget_mem _ a inner hdo
    rcases List.mem_cons.mp hmemO with he | he
    · have hinner : inner = [("d", [logRec 3 "vfh" "d"])] :=
        congrArg Prod.snd he
      rw [hinner] at hmem
      cases hdi : dget [("d", [logRec 3 "vfh" "d"])] d with
      | none =>
        rw [hdi] at hmem
        simp at hmem
      | some bucket =>
        rw [hdi] at hmem
        have hmemI := dget_mem _ d bucket hdi
        simp only [List.mem_singleton, Prod.mk.injEq] at hmemI
        rw [hmemI.2] at hmem
        simp [logRec] at hmem
    · rcases List.mem_cons.mp he with he2 | he2
      · have hinner : inner = [("d", [logRec 2 "nd" "d"])] :=
          congrArg Prod.snd he2
        rw [hinner] at hmem
        cases hdi : dget [("d", [logRec 2 "nd" "d"])] d with
        | none =>
          rw [hdi] at hmem
          simp at hmem
        | some bucket =>
          rw [hdi] at hmem
          have hmemI := dget_mem _ d bucket hdi
          simp only [List.mem_singleton, Prod.mk.injEq] at hmemI
          rw [hmemI.2] at hmem
          simp [logRec] at hmem
      · simp at he2

/-- C8 amended: when records with the same algorithm are consecutive and,
within each algorithm run, records with the same difficulty are consecutive
— exactly what directory enumeration produces — grouping by algorithm and
then by difficulty partitions the records completely and disjointly: every
record lies in the bucket of its own algorithm/difficulty pair and in no
other, and every bucket member comes from the input. -/
theorem group_by_partitions_clustered (logs : List LogData)
    (hA : Clustered (fun ld => ld.metadata.algorithm) logs)
    (hD : ∀ p ∈ pyGroupBy (fun ld => ld.metadata.algorithm) logs,
      Clustered (fun ld => ld.metadata.difficulty) p.2) :
    (∀ x ∈ logs,
      x ∈ nestedBucket logs x.metadata.algorithm x.metadata.difficulty ∧
      ∀ a d : String, x ∈ nestedBucket logs a d →
        a = x.metadata.algorithm ∧ d = x.metadata.difficulty) ∧
    ∀ a d : String, ∀ y ∈ nestedBucket logs a d, y ∈ logs := by
  have hout : group_by_algorithm_and_difficulty logs =
      (pyGroupBy (fun ld => ld.metadata.algorithm) logs).map
        (fun p => (p.1, group_by p.2 (fun ld => ld.metadata.difficulty))) := by
    unfold group_by_algorithm_and_difficulty
    rw [group_by_eq_of_clustered _ _ hA]
  have hknd : (((pyGroupBy (fun ld => ld.metadata.algorithm) logs).map
      (fun p => (p.1, group_by p.2
        (fun ld => ld.metadata.difficulty)))).map Prod.fst).Nodup := by
    rw [List.map_map]
    exact hA
  constructor
  · intro x hx
    obtain ⟨p, hp, hxp⟩ :=
      pyGroupBy_mem_of (fun ld => ld.metadata.algorithm) logs x hx
    have hkey : x.metadata.algorithm = p.1 :=
      pyGroupBy_sound _ logs p hp x hxp
    have hDp := hD p hp
    obtain ⟨q, hq, hxq⟩ :=
      pyGroupBy_mem_of (fun ld => ld.metadata.difficulty) p.2 x hxp
    have hkey2 : x.metadata.difficulty = q.1 :=
      pyGroupBy_sound _ p.2 q hq x hxq
    have hdo : dget (group_by_algorithm_and_difficulty logs) p.1 =
        some (group_by p.2 (fun ld => ld.metadata.difficulty)) := by
      rw [hout]
      exact dget_eq_of_mem _ p.1 _ hknd
        (List.mem_map.mpr ⟨p, hp, rfl⟩)
    have hdi : dget (group_by p.2 (fun ld => ld.metadata.difficulty)) q.1 =
        some q.2 := by
      rw [group_by_eq_of_clustered _ _ hDp]
      exact dget_eq_of_mem _ q.1 _ hDp (by
        obtain ⟨q1, q2⟩ := q
        exact hq)
    constructor
    · unfold nestedBucket
      rw [hkey, hdo]
      dsimp only
      rw [hkey2, hdi]
      exact hxq
    · intro a d hmem
      unfold nestedBucket at hmem
      cases hdo2 : dget (group_by_algorithm_and_difficulty logs) a with
      | none =>
        rw [hdo2] at hmem
        simp at hmem
      | some inner =>
        rw [hdo2] at hmem
        dsimp only at hmem
        rw [hout] at hdo2
        obtain ⟨p2, hp2, hpe⟩ := List.mem_map.mp (dget_mem _ a inner hdo2)
        have hp2a : p2.1 = a := congrArg Prod.fst hpe
        have hp2i : group_by p2.2 (fun ld => ld.metadata.difficulty) =
            inner := congrArg Prod.snd hpe
        cases hdi2 : dget inner d with
        | none =>
          rw [hdi2] at hmem
          simp at hmem
        | some bucket =>
          rw [hdi2] at hmem
          simp only [Option.getD_some] at hmem
          rw [← hp2i, group_by_eq_of_clustered _ _ (hD p2 hp2)] at hdi2
          have hqmem := dget_mem _ d bucket hdi2
          have hdkey : x.metadata.difficulty = d :=
            pyGroupBy_sound _ p2.2 (d, bucket) hqmem x hmem
          have hxin2 : x ∈ p2.2 :=
            pyGroupBy_mem_to _ p2.2 (d, bucket) hqmem x hmem
          have hakey : x.metadata.algorithm = p2.1 :=
            pyGroupBy_sound _ logs p2 hp2 x hxin2
          exact ⟨by rw [hakey, hp2a], hdkey.symm⟩
  · intro a d y hy
    unfold nestedBucket at hy
    cases hdo2 : dget (group_by_algorithm_and_difficulty logs) a with
    | none =>
      rw [hdo2] at hy
      simp at hy
    | some inner =>
      rw [hdo2] at hy
      dsimp only at hy
      rw [hout] at hdo2
      obtain ⟨p2, hp2, hpe⟩ := List.mem_map.mp (dget_mem _ a inner hdo2)
      have hp2i : group_by p2.2 (fun ld => ld.metadata.difficulty) =
          inner := congrArg Prod.snd hpe
      cases hdi2 : dget inner d with
      | none =>
        rw [hdi2] at hy
        simp at hy
      | some bucket =>
        rw [hdi2] at hy
        simp only [Option.getD_some] at hy
        rw [← hp2i, group_by_eq_of_clustered _ _ (hD p2 hp2)] at hdi2
        have hqmem := dget_mem _ d bucket hdi2
        have hyin2 : y ∈ p2.2 :=
          pyGroupBy_mem_to _ p2.2 (d, bucket) hqmem y hy
        exact pyGroupBy_mem_to _ logs p2 hp2 y hyin2

/-- C8 amended, witnessed on a clustered three-record sequence. -/
theorem group_by_partitions_clustered_witness :
    logRec 1 "vfh" "d" ∈ nestedBucket demoLogsGood "vfh" "d" :=
  ((group_by_partitions_clustered demoLogsGood (by decide) (by decide)).1
    (logRec 1 "vfh" "d") (by simp [demoLogsGood])).1


end VfhNd
